import Mathlib

/-!
Verification of the external-secrets core against its specification.

Shallow embedding of:
- the ExternalSecret admission validator
  (apis/externalsecrets/v1/externalsecret_validator.go),
- the dotted-path value resolver of the spec (§4.5),
- the capability surface of the webhook provider and write operations,
- the KeyHub provider: client error mapping, versioned record cache,
  property extraction, vault-record paging,
- the KeyHub store-client cache as a labelled transition system.
-/

/-! ## ExternalSecret validator model -/

/-- Modelled from the spec: the CreationPolicy value set (the type declaration
is not part of the inspected sources; the spec names the creationPolicy values
Owner, Merge and None). -/
inductive CreationPolicy where
  | owner
  | merge
  | none
deriving DecidableEq, Repr

/-- Modelled from the spec: the DeletionPolicy value set (the type declaration
is not part of the inspected sources; the spec and the validator name the
deletionPolicy values Retain, Delete and Merge). -/
inductive DeletionPolicy where
  | retain
  | delete
  | merge
deriving DecidableEq, Repr

/-- Field `spec.target` of an ExternalSecret: the two policies the validator reads. -/
structure ESTarget where
  creationPolicy : CreationPolicy
  deletionPolicy : DeletionPolicy
deriving DecidableEq, Repr

/-- Type `ExternalSecretSourceRef`: pointer fields modelled as `Option Unit`
(presence is all the validator inspects). -/
structure SourceRef where
  generatorRef : Option Unit
  secretStoreRef : Option Unit
deriving DecidableEq, Repr

/-- Type `ExternalSecretDataFromRemoteRef`: one `dataFrom` entry; the validator only
inspects which pointers are nil. -/
structure DataFromRef where
  extract : Option Unit
  find : Option Unit
  sourceRef : Option SourceRef
deriving DecidableEq, Repr

/-- One `spec.data` entry: the validator only reads `secretKey`. -/
structure ESDataEntry where
  secretKey : String
deriving DecidableEq, Repr

/-- The part of an ExternalSecret the validator reads. -/
structure ExternalSecretSpec where
  target : ESTarget
  data : List ESDataEntry
  dataFrom : List DataFromRef
deriving DecidableEq, Repr

/-- The distinct error values produced by the validator; `errors.Join`
aggregation is modelled as list concatenation (nil error = empty list). -/
inductive VErr where
  | policyDeleteNeedsOwner
  | policyMergeWithNone
  | emptyDataAndDataFrom
  | exclusivityViolation
  | missingExtractFindSourceRef
  | sourceRefNeedsGeneratorOrStore
  | duplicateSecretKey (k : String)
deriving DecidableEq, Repr

/-- Function `validatePolicies` (externalsecret_validator.go:98-110): rejects
Delete+Merge, Delete+None and Merge+None. -/
def validatePolicies (es : ExternalSecretSpec) : List VErr :=
  let e1 : List VErr :=
    if (es.target.deletionPolicy = .delete ∧ es.target.creationPolicy = .merge) ∨
       (es.target.deletionPolicy = .delete ∧ es.target.creationPolicy = .none) then
      [.policyDeleteNeedsOwner]
    else []
  let e2 : List VErr :=
    if es.target.deletionPolicy = .merge ∧ es.target.creationPolicy = .none then
      [.policyMergeWithNone]
    else []
  e1 ++ e2

/-- Function `validateSourceRef` (externalsecret_validator.go:73-79). -/
def validateSourceRef (ref : DataFromRef) : List VErr :=
  match ref.sourceRef with
  | some sr =>
      if sr.generatorRef = Option.none ∧ sr.secretStoreRef = Option.none then
        [.sourceRefNeedsGeneratorOrStore]
      else []
  | Option.none => []

/-- Function `validateFindExtractSourceRef` (externalsecret_validator.go:81-87):
rejects an entry with none of find/extract/sourceRef set. -/
def validateFindExtractSourceRef (ref : DataFromRef) : List VErr :=
  if ref.find = Option.none ∧ ref.extract = Option.none ∧
     ref.sourceRef = Option.none then
    [.missingExtractFindSourceRef]
  else []

/-- Whether the entry carries a generatorRef, as computed at
externalsecret_validator.go:90. -/
def hasGeneratorRef (ref : DataFromRef) : Bool :=
  match ref.sourceRef with
  | some sr => sr.generatorRef.isSome
  | Option.none => false

/-- Whether the entry carries a sourceRef with a secretStoreRef. -/
def hasSecretStoreRef (ref : DataFromRef) : Bool :=
  match ref.sourceRef with
  | some sr => sr.secretStoreRef.isSome
  | Option.none => false

/-- Function `validateExtractFindGenerator` (externalsecret_validator.go:89-96):
rejects two or more of find / extract / generatorRef set together. -/
def validateExtractFindGenerator (ref : DataFromRef) : List VErr :=
  if (ref.find.isSome ∧ (ref.extract.isSome ∨ hasGeneratorRef ref = true)) ∨
     (ref.extract.isSome ∧ (ref.find.isSome ∨ hasGeneratorRef ref = true)) ∨
     (hasGeneratorRef ref = true ∧ (ref.find.isSome ∨ ref.extract.isSome)) then
    [.exclusivityViolation]
  else []

/-- Inner loop of `validateDuplicateKeys` (externalsecret_validator.go:112-124):
walk `data`, reporting a duplicate error for every secretKey seen before. -/
def duplicateKeyErrs (seen : List String) : List ESDataEntry → List VErr
  | [] => []
  | d :: rest =>
      (if d.secretKey ∈ seen then [VErr.duplicateSecretKey d.secretKey] else []) ++
        duplicateKeyErrs (d.secretKey :: seen) rest

/-- Function `validateDuplicateKeys` (externalsecret_validator.go:112-124): the
duplicate-secretKey check runs only when deletionPolicy=Retain. -/
def validateDuplicateKeys (es : ExternalSecretSpec) (errs : List VErr) : List VErr :=
  if es.target.deletionPolicy = .retain then
    errs ++ duplicateKeyErrs [] es.data
  else errs

/-- Errors contributed by one `dataFrom` entry, in the order the loop at
externalsecret_validator.go:55-67 joins them. -/
def dataFromEntryErrs (ref : DataFromRef) : List VErr :=
  validateExtractFindGenerator ref ++ validateFindExtractSourceRef ref ++
    validateSourceRef ref

/-- Function `validateExternalSecret` (externalsecret_validator.go:40-71): joins the
errors of every rule instead of stopping at the first. -/
def validateExternalSecret (es : ExternalSecretSpec) : List VErr :=
  let errs := validatePolicies es
  let errs := errs ++
    (if es.data = [] ∧ es.dataFrom = [] then [VErr.emptyDataAndDataFrom] else [])
  let errs := errs ++ es.dataFrom.flatMap dataFromEntryErrs
  validateDuplicateKeys es errs

/-! ## Dotted-path value resolver -/

/-- A JSON value, as far as the resolver inspects it. -/
inductive JsonVal where
  | str (s : String)
  | obj (fields : List (String × JsonVal))

/-- First-match association lookup into a decoded JSON object. -/
def jsonLookup (fields : List (String × JsonVal)) (k : String) : Option JsonVal :=
  match fields with
  | [] => Option.none
  | (k2, v) :: rest => if k2 = k then some v else jsonLookup rest k

/-- Split a character list into dot-separated segments (`cur` holds the
current segment, reversed). -/
def splitDotAux : List Char → List Char → List (List Char)
  | [], cur => [cur.reverse]
  | c :: rest, cur =>
      if c = '.' then cur.reverse :: splitDotAux rest []
      else splitDotAux rest (c :: cur)

/-- Split a string into its dot-separated segments. -/
def splitDot (s : String) : List String :=
  (splitDotAux s.data []).map String.mk

/-- Split a dotted path at its last dot: `"a.b.c" ↦ some ("a.b", "c")`;
`none` when the path holds no dot. -/
def splitLastDot (s : String) : Option (String × String) :=
  let parts := splitDot s
  if parts.length ≤ 1 then Option.none
  else some (String.intercalate "." parts.dropLast, parts.getLastD "")

/-- Modelled from the spec: candidate literal keys for one descent level
(the azure keyvault `getProperty` implementation is not part of the inspected
sources, only its tests are). Per §4.5 the entire remaining string is tried
first as one literal map key; on a miss the last dot-separated segment is
split off onto the pending suffix and the remainder is retried: longest
literal key first. Each pair is (candidate key, suffix still to descend). -/
def candidatesAux : Nat → String → String → List (String × String)
  | 0, _, _ => []
  | n + 1, cand, suffix =>
      (cand, suffix) ::
        match splitLastDot cand with
        | Option.none => []
        | some (rem, last) =>
            candidatesAux n rem (if suffix = "" then last else last ++ "." ++ suffix)

/-- All candidate (literal key, remaining suffix) splits of a path, whole
path first. -/
def candidates (path : String) : List (String × String) :=
  candidatesAux (path.length + 1) path ""

/-- First candidate split whose key is literally present in the object. -/
def firstHit (fields : List (String × JsonVal)) :
    List (String × String) → Option (JsonVal × String)
  | [] => Option.none
  | (c, s) :: rest =>
      match jsonLookup fields c with
      | some v => some (v, s)
      | Option.none => firstHit fields rest

/-- Modelled from the spec (§4.5 dotted-path descent): descend from the full
remaining path, longest literal key first; an exhausted path returns the
current value. Fuel bounds the descent depth; every descent consumes at least
one path segment, so `path.length + 2` fuel is always enough. -/
def resolveFuel : Nat → JsonVal → String → Option JsonVal
  | 0, _, _ => Option.none
  | fuel + 1, j, path =>
      if path = "" then some j
      else
        match j with
        | .obj fields =>
            match firstHit fields (candidates path) with
            | some (v, suffix) => resolveFuel fuel v suffix
            | Option.none => Option.none
        | .str _ => Option.none

/-- Modelled from the spec: `ResolveProperty` dotted-path resolution into a
decoded JSON value (§4.5). -/
def resolveProperty (j : JsonVal) (path : String) : Option JsonVal :=
  resolveFuel (path.length + 2) j path

/-! ## Webhook provider: capability surface and write operations -/

/-- Provider capability set (`SecretStoreCapabilities`). -/
inductive Capability where
  | readOnly
  | writeOnly
  | readWrite
deriving DecidableEq, Repr

/-- Method `Provider.Capabilities` of the webhook provider: `SecretStoreReadOnly`. -/
def webhookCapabilities : Capability := .readOnly

/-- A store as `getProvider` inspects it: whether `spec.provider.webhook` is
set, and the decoded webhook spec when it is. -/
structure WebhookStore where
  webhookSpec : Option Unit
deriving DecidableEq, Repr

/-- Function `getProvider` (webhook provider): errors unless the store carries a
webhook provider section. -/
def webhookGetProvider (store : WebhookStore) : Except String Unit :=
  match store.webhookSpec with
  | some spec => .ok spec
  | Option.none => .error "missing store provider webhook"

/-- Outcome of one webhook write operation: the returned
error/success paired with the number of backend write calls issued
(`PushWebhookData` invocations). -/
structure WriteOutcome where
  result : Except String Unit
  backendWrites : Nat
deriving Repr

/-- Method `WebHook.DeleteSecret`: unconditional not-implemented error, no backend
call. -/
def webhookDeleteSecret : WriteOutcome :=
  { result := .error "not implemented", backendWrites := 0 }

/-- Method `WebHook.SecretExists`: unconditional not-implemented error, no backend
call. -/
def webhookSecretExists : WriteOutcome :=
  { result := .error "not implemented", backendWrites := 0 }

/-- Method `WebHook.PushSecret`: empty remote key, an unresolvable store provider and
a failed payload extraction fail before any backend call; otherwise
`PushWebhookData` is invoked (one backend write). `extractResult` stands for
`utils.ExtractSecretData` and `backendPush` for the `PushWebhookData` call,
both external to the inspected sources. -/
def webhookPushSecret (store : WebhookStore) (remoteKey : String)
    (extractResult : Except String (List UInt8))
    (backendPush : Except String Unit) : WriteOutcome :=
  if remoteKey = "" then
    { result := .error "remote key must be defined", backendWrites := 0 }
  else
    match webhookGetProvider store with
    | .error e => { result := .error ("failed to get store: " ++ e), backendWrites := 0 }
    | .ok _ =>
        match extractResult with
        | .error e => { result := .error e, backendWrites := 0 }
        | .ok _ =>
            match backendPush with
            | .error e =>
                { result := .error ("failed to push webhook data: " ++ e),
                  backendWrites := 1 }
            | .ok _ => { result := .ok (), backendWrites := 1 }

/-! ## KeyHub client: error mapping (client.go) -/

/-- The error surface of the KeyHub client visible to callers: the sentinel
`esv1.NoSecretErr` or any other error. -/
inductive EsError where
  | noSecret
  | generic (msg : String)
deriving DecidableEq, Repr

/-- A KeyHub vault record, as far as the inspected code reads it. Times are
modelled as the integer Unix timestamp the code converts them to. -/
structure VaultRecord where
  name : String
  color : String
  link : String
  username : String
  filename : String
  file : String
  enddate : String
  comment : String
  password : String
  lastModifiedAt : Int
deriving DecidableEq, Repr

/-- Function `GetVaultRecordLastModifiedAt` (client.go:63-71), as a function of the
outcome of the underlying `GetVaultRecordMetadata` query: `err != nil ||
len(records) == 0` collapses to `NoSecretErr`. -/
def getVaultRecordLastModifiedAt (resp : Except String (List VaultRecord)) :
    Except EsError Int :=
  match resp with
  | .error _ => .error .noSecret
  | .ok [] => .error .noSecret
  | .ok (r :: _) => .ok r.lastModifiedAt

/-- Function `GetVaultRecord` (client.go:128-144), as a function of the outcome of the
underlying page query: `err != nil || len(wrapper.GetItems()) == 0` collapses
to `NoSecretErr`. -/
def getVaultRecordApi (resp : Except String (List VaultRecord)) :
    Except EsError VaultRecord :=
  match resp with
  | .error _ => .error .noSecret
  | .ok [] => .error .noSecret
  | .ok (r :: _) => .ok r

/-! ## KeyHub provider: versioned record cache and `getVaultRecord` -/

/-- Modelled from the spec (§4.3): the generic versioned cache
(`pkg/cache.Cache`, not part of the inspected sources, only its KeyHub
callers are). Entries map a key to (version token, record); lookups take the
first (most recent) entry for a key, matching unconditional overwrite on
`Add`. The key is the record name (the caller leaves namespace and kind
empty), the version token the Unix timestamp string the caller formats. -/
structure RecordCache where
  entries : List (String × (Int × VaultRecord))

/-- First (most recent) cache entry for a key. -/
def cacheFind (entries : List (String × (Int × VaultRecord))) (k : String) :
    Option (Int × VaultRecord) :=
  match entries with
  | [] => Option.none
  | (k2, e) :: rest => if k2 = k then some e else cacheFind rest k

/-- Operation `Cache.Contains`: key present, any version. -/
def RecordCache.containsKey (c : RecordCache) (k : String) : Bool :=
  (cacheFind c.entries k).isSome

/-- Operation `Cache.Get(version, key)`: hit only if the key is present and the stored
version equals the requested version (spec §4.3). -/
def RecordCache.get (c : RecordCache) (version : Int) (k : String) :
    Option VaultRecord :=
  match cacheFind c.entries k with
  | some (v, r) => if v = version then some r else Option.none
  | Option.none => Option.none

/-- Operation `Cache.Add(version, key, value)`: unconditional overwrite (spec §4.3). -/
def RecordCache.add (c : RecordCache) (version : Int) (k : String)
    (r : VaultRecord) : RecordCache :=
  { entries := (k, (version, r)) :: c.entries }

/-- Sequential backend oracle for one `getVaultRecord` call: the responses of
the metadata (freshness probe) query and of the full record query. -/
structure KhBackend where
  metadataResp : Except String (List VaultRecord)
  recordResp : Except String (List VaultRecord)

/-- Observable events of one `getVaultRecord` call: cheap freshness probe,
taking/releasing the per-key mutex, and the expensive full fetch. -/
inductive KhEvent where
  | probe
  | lock
  | unlock
  | fetch
deriving DecidableEq, Repr

/-- The probe-and-lookup block of `getVaultRecord` (part_001:148-161, repeated
verbatim at 168-180): when the key is cached, probe `lastModifiedAt` and look
the record up under that version; `some` result means the block returns.
Also yields the events it emitted. -/
def khRecheck (b : KhBackend) (cache : RecordCache) (refKey : String) :
    Option (Except EsError VaultRecord) × List KhEvent :=
  if cache.containsKey refKey then
    match getVaultRecordLastModifiedAt b.metadataResp with
    | .error e => (some (.error e), [.probe])
    | .ok t =>
        match cache.get t refKey with
        | some r => (some (.ok r), [.probe])
        | Option.none => (Option.none, [.probe])
  else (Option.none, [])

/-- Method `client.getVaultRecord` (part_001:136-189), sequentially: reject a
non-empty ref version; optimistic probe+lookup; on miss lock the key, repeat
the probe+lookup, and only then fetch the full record and cache it under the
own `lastModifiedAt` of the fetched record. Returns result, final cache and the
event trace. -/
def getVaultRecordCached (b : KhBackend) (cache : RecordCache)
    (refKey refVersion : String) :
    Except EsError VaultRecord × RecordCache × List KhEvent :=
  if refVersion ≠ "" then
    (.error (.generic "specifying a version is not supported by KeyHub"), cache, [])
  else
    match khRecheck b cache refKey with
    | (some res, evs) => (res, cache, evs)
    | (Option.none, evs1) =>
        match khRecheck b cache refKey with
        | (some res, evs2) => (res, cache, evs1 ++ [.lock] ++ evs2 ++ [.unlock])
        | (Option.none, evs2) =>
            match getVaultRecordApi b.recordResp with
            | .error e =>
                (.error e, cache, evs1 ++ [.lock] ++ evs2 ++ [.fetch, .unlock])
            | .ok r =>
                (.ok r, cache.add r.lastModifiedAt refKey r,
                  evs1 ++ [.lock] ++ evs2 ++ [.fetch, .unlock])

/-- The property dispatch of `client.GetSecret` (part_001:77-98): any property
other than the named ones — in particular the empty property — falls to the
default branch, the password of the record. (`lastModifiedAt` is rendered from the
modelled Unix-timestamp token.) -/
def extractProperty (r : VaultRecord) (property : String) : String :=
  match property with
  | "name" => r.name
  | "color" => r.color
  | "link" => r.link
  | "username" => r.username
  | "filename" => r.filename
  | "file" => r.file
  | "enddate" => r.enddate
  | "comment" => r.comment
  | "lastModifiedAt" => toString r.lastModifiedAt
  | _ => r.password

/-- Method `client.GetSecret` (part_001:66-99): retrieve the record through the
cache, then extract the requested property. -/
def khGetSecret (b : KhBackend) (cache : RecordCache)
    (refKey refVersion property : String) : Except EsError String × RecordCache :=
  match getVaultRecordCached b cache refKey refVersion with
  | (.error e, c, _) => (.error e, c)
  | (.ok r, c, _) => (.ok (extractProperty r property), c)

/-- A concrete vault record for witness runs. -/
def recA : VaultRecord :=
  { name := "n", color := "c", link := "l", username := "u", filename := "fn",
    file := "f", enddate := "e", comment := "cm", password := "hunter2",
    lastModifiedAt := 42 }

/-- A backend oracle that finds `recA` on both the probe and the full fetch. -/
def khbA : KhBackend :=
  { metadataResp := Except.ok [recA], recordResp := Except.ok [recA] }

/-- The empty record cache. -/
def emptyCache : RecordCache := { entries := [] }

/-! ## KeyHub client: vault-record paging (`iterateVaultRecords`) -/

/-- One page request as actually sent: `Headers` is passed as nil, so no
Range header travels with it. -/
structure PageRequest where
  rangeHeader : Option String
deriving DecidableEq, Repr

/-- One response page (`VaultVaultRecordLinkableWrapperable`). -/
structure PageWrapper where
  items : List VaultRecord
deriving DecidableEq, Repr

/-- The paging loop of `iterateVaultRecords` (client.go:105-126). The loop
variable declared before the loop is modelled by `outerWrapper`: the
`wrapper, err :=` inside the body declares a fresh inner variable (Go `:=`
shadowing), so `outerWrapper` is never assigned and the loop condition keeps
reading its initial nil. The Range header is built into a local headers
variable, but the request configuration passes `Headers: nil`, so the sent
request carries none. Accumulates the requests sent and the callback
invocations; fuel bounds the iteration count. -/
def iterAux (backend : Nat → Except String PageWrapper) (batchSize : Nat) :
    Nat → Option PageWrapper → Nat → List PageRequest →
    List (List VaultRecord) → Except String (List PageRequest × List (List VaultRecord))
  | 0, _, _, reqs, calls => .ok (reqs, calls)
  | fuel + 1, outerWrapper, offset, reqs, calls =>
      let req : PageRequest := { rangeHeader := Option.none }
      match backend reqs.length with
      | .error e => .error e
      | .ok w =>
          let reqs := reqs ++ [req]
          let calls := calls ++ [w.items]
          if (match outerWrapper with
              | some w0 => decide (w0.items.length < batchSize)
              | Option.none => false) then
            iterAux backend batchSize fuel outerWrapper (offset + 1) reqs calls
          else .ok (reqs, calls)

/-- Function `iterateVaultRecords` (client.go:105-126): run the paging loop from a nil
outer wrapper, offset 0, batch size 100. -/
def iterateVaultRecords (backend : Nat → Except String PageWrapper)
    (fuel : Nat) : Except String (List PageRequest × List (List VaultRecord)) :=
  iterAux backend 100 fuel Option.none 0 [] []

/-! ## KeyHub store-client cache (`Provider.newClient`) as a transition system -/

/-- Phase of one `newClient` caller: before the optimistic read; waiting on
the package-level mutex; holding it (about to re-check); inside the
`NewClient` factory call (still holding the mutex); finished with a cached
client; finished with the factory error (part_003:77-79 returns the error
without caching anything). -/
inductive CPhase where
  | start
  | waiting
  | holding
  | inFactory
  | done
  | failed
deriving DecidableEq, Repr

/-- Shared state of `n` concurrent `newClient` callers (part_003:30-84):
`lock` is the single package-level `useMu` mutex, `cache` records which
(identity, version) keys hold a constructed client, `calls` counts factory
invocations per key and `fails` the failed ones among them. -/
structure CCState (n : Nat) where
  phase : Fin n → CPhase
  lock : Option (Fin n)
  cache : String → Bool
  calls : String → Nat
  fails : String → Nat

/-- Initial state: every caller before its optimistic read, mutex free, cache
cold, no factory calls. -/
def ccInit (n : Nat) : CCState n :=
  { phase := fun _ => .start, lock := Option.none,
    cache := fun _ => false, calls := fun _ => 0, fails := fun _ => 0 }

/-- Interleaving semantics of `Provider.newClient` (part_003:56-84), `keyOf`
giving the (identity, version) cache key of each caller: optimistic lock-free
`Get`; on miss `useMu.Lock()` — the one global mutex; re-check under the
lock; on a second miss call the `NewClient` factory, which either succeeds
and gets `Add`-ed before unlocking, or fails, in which case the error is
returned without caching anything (part_003:77-79: no negative caching). The
factory runs while the global mutex is held. -/
inductive CCStep {n : Nat} (keyOf : Fin n → String) :
    CCState n → CCState n → Prop where
  | read_hit (s : CCState n) (c : Fin n)
      (h1 : s.phase c = .start) (h2 : s.cache (keyOf c) = true) :
      CCStep keyOf s { s with phase := Function.update s.phase c .done }
  | read_miss (s : CCState n) (c : Fin n)
      (h1 : s.phase c = .start) (h2 : s.cache (keyOf c) = false) :
      CCStep keyOf s { s with phase := Function.update s.phase c .waiting }
  | acquire (s : CCState n) (c : Fin n)
      (h1 : s.phase c = .waiting) (h2 : s.lock = Option.none) :
      CCStep keyOf s
        { s with phase := Function.update s.phase c .holding, lock := some c }
  | locked_hit (s : CCState n) (c : Fin n)
      (h1 : s.phase c = .holding) (h2 : s.lock = some c)
      (h3 : s.cache (keyOf c) = true) :
      CCStep keyOf s
        { s with phase := Function.update s.phase c .done, lock := Option.none }
  | enter_factory (s : CCState n) (c : Fin n)
      (h1 : s.phase c = .holding) (h2 : s.lock = some c)
      (h3 : s.cache (keyOf c) = false) :
      CCStep keyOf s
        { s with phase := Function.update s.phase c .inFactory,
                 calls := Function.update s.calls (keyOf c) (s.calls (keyOf c) + 1) }
  | finish_factory (s : CCState n) (c : Fin n)
      (h1 : s.phase c = .inFactory) (h2 : s.lock = some c) :
      CCStep keyOf s
        { s with phase := Function.update s.phase c .done,
                 cache := Function.update s.cache (keyOf c) true,
                 lock := Option.none }
  | fail_factory (s : CCState n) (c : Fin n)
      (h1 : s.phase c = .inFactory) (h2 : s.lock = some c) :
      CCStep keyOf s
        { s with phase := Function.update s.phase c .failed,
                 lock := Option.none,
                 fails := Function.update s.fails (keyOf c) (s.fails (keyOf c) + 1) }

/-- Reachability from the cold initial state under any interleaving. -/
def CCReach {n : Nat} (keyOf : Fin n → String) (s : CCState n) : Prop :=
  Relation.ReflTransGen (CCStep keyOf) (ccInit n) s

/-- Inductive invariant of the client-cache system: the mutex protects the
holding/inFactory phases; per key, the factory runs at most once more than it
failed, the one extra run is matched by a cached client or a caller still
inside the factory, a cached client accounts for exactly the extra run, a
caller inside the factory is running the extra one on an uncached key, the
key of a successfully finished caller is cached, and failures never exceed
runs. -/
def ccInv {n : Nat} (keyOf : Fin n → String) (s : CCState n) : Prop :=
  (∀ c, s.phase c = .holding → s.lock = some c) ∧
  (∀ c, s.phase c = .inFactory → s.lock = some c) ∧
  (∀ k, s.calls k ≤ s.fails k + 1) ∧
  (∀ k, s.calls k = s.fails k + 1 →
    s.cache k = true ∨ ∃ c, s.phase c = .inFactory ∧ keyOf c = k) ∧
  (∀ k, s.cache k = true → s.calls k = s.fails k + 1) ∧
  (∀ c, s.phase c = .inFactory →
    s.calls (keyOf c) = s.fails (keyOf c) + 1) ∧
  (∀ c, s.phase c = .done → s.cache (keyOf c) = true) ∧
  (∀ c, s.phase c = .inFactory → s.cache (keyOf c) = false) ∧
  (∀ k, s.fails k ≤ s.calls k)

/-- Caller keys for the blocking scenario: caller 0 works on key "A",
caller 1 on key "B". -/
def keyOfAB : Fin 2 → String := fun c => if c.val = 0 then "A" else "B"

/-- Caller key for the single-caller witness run. -/
def keyOfA : Fin 1 → String := fun _ => "A"

/-- Whether caller `c` has any enabled transition in state `s`: a waiting
caller is enabled only while the global mutex is free; a caller holding the
mutex or inside the factory is always enabled; a finished caller never is. -/
def ccEnabled {n : Nat} (s : CCState n) (c : Fin n) : Bool :=
  match s.phase c with
  | .start => true
  | .waiting => s.lock == Option.none
  | .holding => s.lock == some c
  | .inFactory => s.lock == some c
  | .done => false
  | .failed => false

/-- Blocking scenario, step 1: caller 0 misses the optimistic read. -/
def ccAB1 : CCState 2 :=
  { ccInit 2 with phase := Function.update (ccInit 2).phase 0 .waiting }

/-- Blocking scenario, step 2: caller 0 takes the global mutex. -/
def ccAB2 : CCState 2 :=
  { ccAB1 with phase := Function.update ccAB1.phase 0 .holding, lock := some 0 }

/-- Blocking scenario, step 3: caller 0 re-checks, misses and enters the slow
`NewClient` factory call, still holding the global mutex. -/
def ccAB3 : CCState 2 :=
  { ccAB2 with phase := Function.update ccAB2.phase 0 .inFactory,
               calls := Function.update ccAB2.calls (keyOfAB 0)
                          (ccAB2.calls (keyOfAB 0) + 1) }

/-- Blocking scenario, step 4: caller 1, on the distinct key "B", misses its
optimistic read and now needs the mutex caller 0 holds. -/
def ccABBlocked : CCState 2 :=
  { ccAB3 with phase := Function.update ccAB3.phase 1 .waiting }

/-- Single-caller run, step 1: the optimistic read misses. -/
def ccA1 : CCState 1 :=
  { ccInit 1 with phase := Function.update (ccInit 1).phase 0 .waiting }

/-- Single-caller run, step 2: the mutex is taken. -/
def ccA2 : CCState 1 :=
  { ccA1 with phase := Function.update ccA1.phase 0 .holding, lock := some 0 }

/-- Single-caller run, step 3: the re-check misses, the factory is entered. -/
def ccA3 : CCState 1 :=
  { ccA2 with phase := Function.update ccA2.phase 0 .inFactory,
              calls := Function.update ccA2.calls (keyOfA 0)
                         (ccA2.calls (keyOfA 0) + 1) }

/-- Single-caller run, step 4: the built client is cached, the mutex
released. -/
def ccA4 : CCState 1 :=
  { ccA3 with phase := Function.update ccA3.phase 0 .done,
              cache := Function.update ccA3.cache (keyOfA 0) true,
              lock := Option.none }

/-- Caller keys for the failure-retry scenario: both callers use key "A". -/
def keyOfA2 : Fin 2 → String := fun _ => "A"

/-- Failure-retry run, step 1: caller 0 misses the optimistic read. -/
def ccR1 : CCState 2 :=
  { ccInit 2 with phase := Function.update (ccInit 2).phase 0 .waiting }

/-- Failure-retry run, step 2: caller 1 misses the optimistic read too. -/
def ccR2 : CCState 2 :=
  { ccR1 with phase := Function.update ccR1.phase 1 .waiting }

/-- Failure-retry run, step 3: caller 0 takes the mutex. -/
def ccR3 : CCState 2 :=
  { ccR2 with phase := Function.update ccR2.phase 0 .holding, lock := some 0 }

/-- Failure-retry run, step 4: caller 0 re-checks, misses and enters the
factory. -/
def ccR4 : CCState 2 :=
  { ccR3 with phase := Function.update ccR3.phase 0 .inFactory,
              calls := Function.update ccR3.calls (keyOfA2 0)
                         (ccR3.calls (keyOfA2 0) + 1) }

/-- Failure-retry run, step 5: the factory fails for caller 0; the error is
returned and nothing is cached. -/
def ccR5 : CCState 2 :=
  { ccR4 with phase := Function.update ccR4.phase 0 .failed,
              lock := Option.none,
              fails := Function.update ccR4.fails (keyOfA2 0)
                         (ccR4.fails (keyOfA2 0) + 1) }

/-- Failure-retry run, step 6: caller 1 takes the freed mutex. -/
def ccR6 : CCState 2 :=
  { ccR5 with phase := Function.update ccR5.phase 1 .holding, lock := some 1 }

/-- Failure-retry run, step 7: caller 1 re-checks the still-cold key and
enters the factory — the second invocation for the same cold key. -/
def ccR7 : CCState 2 :=
  { ccR6 with phase := Function.update ccR6.phase 1 .inFactory,
              calls := Function.update ccR6.calls (keyOfA2 1)
                         (ccR6.calls (keyOfA2 1) + 1) }

/-- Failure-retry run, step 8: the retry succeeds and is cached. -/
def ccR8 : CCState 2 :=
  { ccR7 with phase := Function.update ccR7.phase 1 .done,
              cache := Function.update ccR7.cache (keyOfA2 1) true,
              lock := Option.none }

/-! ## Concrete validator inputs used by counterexamples and witnesses -/

/-- A `dataFrom` entry setting both `extract` and a `sourceRef` that carries
a secretStoreRef. -/
def refExtractStore : DataFromRef :=
  { extract := some (), find := Option.none,
    sourceRef := some { generatorRef := Option.none, secretStoreRef := some () } }

/-- An ExternalSecret whose single `dataFrom` entry sets both `extract` and
`sourceRef`. -/
def esExtractStore : ExternalSecretSpec :=
  { target := { creationPolicy := .owner, deletionPolicy := .retain },
    data := [], dataFrom := [refExtractStore] }

/-- An ExternalSecret violating two independent rules: the illegal
Delete+None policy combination, and empty data/dataFrom. -/
def esMultiViolation : ExternalSecretSpec :=
  { target := { creationPolicy := .none, deletionPolicy := .delete },
    data := [], dataFrom := [] }

/-! ## Theorems -/

/-- C1: the policy check of `validatePolicies` rejects exactly
deletionPolicy=Delete with creationPolicy≠Owner and deletionPolicy=Merge with
creationPolicy=None; every other creation/deletion policy combination passes. -/
theorem validatePolicies_characterization (es : ExternalSecretSpec) :
    validatePolicies es = [] ↔
      ¬((es.target.deletionPolicy = .delete ∧ es.target.creationPolicy ≠ .owner) ∨
        (es.target.deletionPolicy = .merge ∧ es.target.creationPolicy = .none)) := by
  obtain ⟨⟨cp, dp⟩, d, df⟩ := es
  cases cp <;> cases dp <;> simp [validatePolicies]

/-- The first literal-key candidate tried at each descent level is the whole
remaining path, so a literal hit on the full path wins immediately. -/
theorem resolveFuel_literal_hit (m : Nat) (fields : List (String × JsonVal))
    (path : String) (v : JsonVal) (hne : path ≠ "")
    (hl : jsonLookup fields path = some v) :
    resolveFuel (m + 2) (.obj fields) path = some v := by
  show resolveFuel (m + 1 + 1) (.obj fields) path = some v
  simp only [resolveFuel, if_neg hne, candidates, candidatesAux, firstHit, hl]
  simp [resolveFuel]

/-- C2: property resolution gives longest-literal-key-first precedence: a
path literally present as a map key resolves to the value under that key before any
dot splitting, and only on a miss is the last segment split off and the
remainder descended into; in particular `{"foo.json":"bar"}` at `"foo.json"`
gives `"bar"` and `{"foo":{"key":"value"}}` at `"foo.key"` gives `"value"`. -/
theorem resolveProperty_longest_literal_first :
    (∀ (fields : List (String × JsonVal)) (path : String) (v : JsonVal),
        path ≠ "" → jsonLookup fields path = some v →
        resolveProperty (.obj fields) path = some v) ∧
    resolveProperty (.obj [("foo.json", .str "bar")]) "foo.json" =
      some (.str "bar") ∧
    resolveProperty (.obj [("foo", .obj [("key", .str "value")])]) "foo.key" =
      some (.str "value") := by
  refine ⟨?_, by rfl, by rfl⟩
  intro fields path v hne hl
  exact resolveFuel_literal_hit path.length fields path v hne hl

/-- Witness for C2 at a concrete literal-keyed object. -/
theorem resolveProperty_longest_literal_first_witness :
    resolveProperty (.obj [("a.b", .str "x")]) "a.b" = some (.str "x") :=
  resolveProperty_longest_literal_first.1 [("a.b", .str "x")] "a.b" (.str "x")
    (by decide) (by rfl)

/-- The resolver model reproduces the keyvault_test.go case
`fetchDottedKeyJSONTag`: tag `foo = {"foo.json":"bar"}`, property
`foo.foo.json` resolves to `bar`. -/
theorem resolveProperty_matches_fetchDottedKeyJSONTag :
    resolveProperty (.obj [("foo", .obj [("foo.json", .str "bar")])])
      "foo.foo.json" = some (.str "bar") := by rfl

/-- The resolver model reproduces the keyvault_test.go case
`fetchNestedDottedJSONTag`: property `foo.nested.foo` descends two levels. -/
theorem resolveProperty_matches_fetchNestedDottedJSONTag :
    resolveProperty
      (.obj [("foo", .obj [("key", .str "value"),
        ("nested", .obj [("foo", .str "bar")])])])
      "foo.nested.foo" = some (.str "bar") := by rfl

/-- The resolver model reproduces the keyvault_test.go case
`fetchNestedJSONTag`: property `foo.nested` yields the nested object. -/
theorem resolveProperty_matches_fetchNestedJSONTag :
    resolveProperty
      (.obj [("foo", .obj [("key", .str "value"),
        ("nested", .obj [("foo", .str "bar")])])])
      "foo.nested" = some (.obj [("foo", .str "bar")]) := by rfl

/-- C3 counterexample: an entry setting both `extract` and `sourceRef` (with
a secretStoreRef) passes `validateExternalSecret` with no error, although
two of the three fields are set. -/
theorem dataFrom_exclusivity_counterexample :
    validateExternalSecret esExtractStore = [] ∧
    refExtractStore.extract.isSome = true ∧
    refExtractStore.sourceRef.isSome = true ∧
    esExtractStore.dataFrom = [refExtractStore] := by
  refine ⟨by decide, by decide, by decide, by decide⟩

/-- C3 amended: a dataFrom entry is rejected exactly when none of extract,
find and sourceRef is set, or at least two of extract, find and
sourceRef.generatorRef are set, or a sourceRef carries neither generatorRef
nor secretStoreRef; a sourceRef holding only a secretStoreRef may accompany
extract or find. -/
theorem dataFrom_entry_errors_characterization (ref : DataFromRef) :
    dataFromEntryErrs ref ≠ [] ↔
      ((ref.extract = Option.none ∧ ref.find = Option.none ∧
          ref.sourceRef = Option.none) ∨
        ((ref.extract.isSome ∧ ref.find.isSome) ∨
          (ref.extract.isSome ∧ hasGeneratorRef ref = true) ∨
          (ref.find.isSome ∧ hasGeneratorRef ref = true)) ∨
        (ref.sourceRef.isSome ∧ hasGeneratorRef ref = false ∧
          hasSecretStoreRef ref = false)) := by
  rcases ref with ⟨(_ | u1), (_ | u2), (_ | ⟨(_ | u3), (_ | u4)⟩)⟩ <;>
    simp [dataFromEntryErrs, validateExtractFindGenerator,
      validateFindExtractSourceRef, validateSourceRef, hasGeneratorRef,
      hasSecretStoreRef]

/-- Membership in the incoming error list survives `validateDuplicateKeys`. -/
theorem mem_validateDuplicateKeys (es : ExternalSecretSpec)
    (errs : List VErr) (m : VErr) (h : m ∈ errs) :
    m ∈ validateDuplicateKeys es errs := by
  unfold validateDuplicateKeys
  split
  · exact List.mem_append_left _ h
  · exact h

/-- Lemma: `validateExternalSecret` joins the rule families in order. -/
theorem validateExternalSecret_eq (es : ExternalSecretSpec) :
    validateExternalSecret es =
      validateDuplicateKeys es
        ((validatePolicies es ++
            (if es.data = [] ∧ es.dataFrom = []
             then [VErr.emptyDataAndDataFrom] else [])) ++
          es.dataFrom.flatMap dataFromEntryErrs) := rfl

/-- C4: validation is aggregating, never fail-fast: every violated rule
contributes its error to the one returned error list — every policy error,
the empty data/dataFrom error, every error of every dataFrom entry, and
(under deletionPolicy=Retain) every duplicate-key error all appear together. -/
theorem validateExternalSecret_aggregates (es : ExternalSecretSpec) :
    (∀ m ∈ validatePolicies es, m ∈ validateExternalSecret es) ∧
    ((es.data = [] ∧ es.dataFrom = []) →
      VErr.emptyDataAndDataFrom ∈ validateExternalSecret es) ∧
    (∀ ref ∈ es.dataFrom, ∀ m ∈ dataFromEntryErrs ref,
      m ∈ validateExternalSecret es) ∧
    (es.target.deletionPolicy = .retain →
      ∀ m ∈ duplicateKeyErrs [] es.data, m ∈ validateExternalSecret es) := by
  refine ⟨?_, ?_, ?_, ?_⟩
  · intro m hm
    rw [validateExternalSecret_eq]
    exact mem_validateDuplicateKeys _ _ _
      (List.mem_append_left _ (List.mem_append_left _ hm))
  · intro hempty
    rw [validateExternalSecret_eq, if_pos hempty]
    exact mem_validateDuplicateKeys _ _ _
      (List.mem_append_left _ (List.mem_append_right _ (by simp)))
  · intro ref href m hm
    rw [validateExternalSecret_eq]
    refine mem_validateDuplicateKeys _ _ _ (List.mem_append_right _ ?_)
    exact List.mem_flatMap.mpr ⟨ref, href, hm⟩
  · intro hretain m hm
    rw [validateExternalSecret_eq]
    unfold validateDuplicateKeys
    rw [if_pos hretain]
    exact List.mem_append_right _ hm

/-- Witness for C4: a spec with an illegal policy combination and empty
data/dataFrom gets both errors reported together. -/
theorem validateExternalSecret_aggregates_witness :
    VErr.policyDeleteNeedsOwner ∈ validateExternalSecret esMultiViolation ∧
    VErr.emptyDataAndDataFrom ∈ validateExternalSecret esMultiViolation :=
  ⟨(validateExternalSecret_aggregates esMultiViolation).1 _ (by decide),
   (validateExternalSecret_aggregates esMultiViolation).2.1 ⟨rfl, rfl⟩⟩

/-- C5 counterexample: the webhook provider reports ReadOnly capability, yet
its PushSecret with a non-empty remote key, a resolvable webhook provider and
a successful extraction performs one backend write and returns success — not
an unsupported-operation failure. -/
theorem webhook_readonly_push_counterexample :
    webhookCapabilities = Capability.readOnly ∧
    (webhookPushSecret { webhookSpec := some () } "remote-key"
        (Except.ok [104]) (Except.ok ())).result = Except.ok () ∧
    (webhookPushSecret { webhookSpec := some () } "remote-key"
        (Except.ok [104]) (Except.ok ())).backendWrites = 1 := by
  exact ⟨rfl, rfl, rfl⟩

/-- C5 amended: the webhook provider reports ReadOnly capability; its
DeleteSecret and SecretExists fail fast with a not-implemented error and
perform no backend write, and PushSecret performs no backend write when the
remote key is empty or the webhook provider section of the store is missing — but
with a non-empty key, a resolvable provider and a successful extraction,
PushSecret does invoke the backend push (exactly one write), so the fail-fast
capability gate does not hold for PushSecret inside the provider. -/
theorem webhook_write_operations (store : WebhookStore) (remoteKey : String)
    (extractResult : Except String (List UInt8))
    (backendPush : Except String Unit) :
    webhookCapabilities = Capability.readOnly ∧
    webhookDeleteSecret.result = Except.error "not implemented" ∧
    webhookDeleteSecret.backendWrites = 0 ∧
    webhookSecretExists.result = Except.error "not implemented" ∧
    webhookSecretExists.backendWrites = 0 ∧
    (remoteKey = "" →
      (webhookPushSecret store remoteKey extractResult backendPush).backendWrites
        = 0) ∧
    (store.webhookSpec = Option.none →
      (webhookPushSecret store remoteKey extractResult backendPush).backendWrites
        = 0) ∧
    (∀ v, remoteKey ≠ "" → store.webhookSpec.isSome = true →
      extractResult = Except.ok v →
      (webhookPushSecret store remoteKey extractResult backendPush).backendWrites
        = 1) := by
  refine ⟨rfl, rfl, rfl, rfl, rfl, ?_, ?_, ?_⟩
  · intro h
    simp [webhookPushSecret, h]
  · intro h
    by_cases hk : remoteKey = "" <;>
      simp [webhookPushSecret, webhookGetProvider, h, hk]
  · intro v hk hs hx
    rcases store with ⟨(_ | u)⟩
    · simp at hs
    · cases backendPush <;>
        simp [webhookPushSecret, webhookGetProvider, hk, hx]

/-- Witness for C5: the amended behaviour at concrete inputs. -/
theorem webhook_write_operations_witness :
    (webhookPushSecret { webhookSpec := some () } "" (Except.ok [])
        (Except.ok ())).backendWrites = 0 ∧
    (webhookPushSecret { webhookSpec := Option.none } "k" (Except.ok [])
        (Except.ok ())).backendWrites = 0 ∧
    (webhookPushSecret { webhookSpec := some () } "k" (Except.ok [])
        (Except.ok ())).backendWrites = 1 :=
  ⟨(webhook_write_operations { webhookSpec := some () } "" (Except.ok [])
      (Except.ok ())).2.2.2.2.2.1 rfl,
   (webhook_write_operations { webhookSpec := Option.none } "k" (Except.ok [])
      (Except.ok ())).2.2.2.2.2.2.1 rfl,
   (webhook_write_operations { webhookSpec := some () } "k" (Except.ok [])
      (Except.ok ())).2.2.2.2.2.2.2 [] (by decide) rfl rfl⟩

/-- C6 counterexample: a failing backend query — not a missing record — is
returned as NoSecretErr by both GetVaultRecordLastModifiedAt and
GetVaultRecord. -/
theorem keyhub_notfound_counterexample :
    getVaultRecordLastModifiedAt (Except.error "network timeout")
      = Except.error EsError.noSecret ∧
    getVaultRecordApi (Except.error "authentication failure")
      = Except.error EsError.noSecret :=
  ⟨rfl, rfl⟩

/-- C6 amended: GetVaultRecordLastModifiedAt and GetVaultRecord return
NoSecretErr both when the record is missing (empty result) and when the
underlying query fails for any reason; they never surface a distinct generic
error, so backend failures are not distinguished from missing records. -/
theorem keyhub_error_collapse (resp : Except String (List VaultRecord)) :
    (getVaultRecordLastModifiedAt resp = Except.error EsError.noSecret ↔
      ((∃ e, resp = Except.error e) ∨ resp = Except.ok [])) ∧
    (getVaultRecordApi resp = Except.error EsError.noSecret ↔
      ((∃ e, resp = Except.error e) ∨ resp = Except.ok [])) ∧
    (∀ m, getVaultRecordLastModifiedAt resp ≠ Except.error (EsError.generic m)) ∧
    (∀ m, getVaultRecordApi resp ≠ Except.error (EsError.generic m)) := by
  rcases resp with e | (_ | ⟨r, rs⟩) <;>
    simp [getVaultRecordLastModifiedAt, getVaultRecordApi]

/-- Witness for C6 amended: concrete failing query and concrete miss. -/
theorem keyhub_error_collapse_witness :
    getVaultRecordLastModifiedAt (Except.ok []) = Except.error EsError.noSecret ∧
    ¬(getVaultRecordApi (Except.error "boom")
        = Except.error (EsError.generic "boom")) :=
  ⟨(keyhub_error_collapse (Except.ok [])).1.mpr (Or.inr rfl),
   (keyhub_error_collapse (Except.error "boom")).2.2.2 "boom"⟩

/-- C9: a KeyHub GetSecret whose ref has an empty property returns the vault
password of the record whenever record retrieval succeeds. -/
theorem khGetSecret_default_property (b : KhBackend) (cache : RecordCache)
    (refKey refVersion : String) (r : VaultRecord)
    (h : (getVaultRecordCached b cache refKey refVersion).1 = Except.ok r) :
    (khGetSecret b cache refKey refVersion "").1 = Except.ok r.password := by
  unfold khGetSecret
  rcases heq : getVaultRecordCached b cache refKey refVersion with ⟨res, c, evs⟩
  rw [heq] at h
  simp only at h
  subst h
  rfl

/-- Witness for C9: against a one-record backend and a cold cache, the empty
property yields the password of the record. -/
theorem khGetSecret_default_property_witness :
    (khGetSecret khbA emptyCache "k" "" "").1 = Except.ok "hunter2" :=
  khGetSecret_default_property khbA emptyCache "k" "" recA (by rfl)

/-- C10: the paging loop of iterateVaultRecords issues exactly one page
request — carrying no Range header, since the request configuration passes
nil headers — and invokes the callback exactly once, for any backend and any
number of matching records: the inner short-variable declaration shadows the
outer loop variable, so the loop condition reads nil and stops after the
first iteration. -/
theorem iterateVaultRecords_single_page
    (backend : Nat → Except String PageWrapper) (fuel : Nat) (h : 1 ≤ fuel) :
    iterateVaultRecords backend fuel =
      match backend 0 with
      | Except.error e => Except.error e
      | Except.ok w =>
          Except.ok ([{ rangeHeader := Option.none }], [w.items]) := by
  cases fuel with
  | zero => omega
  | succ m =>
      cases hb : backend 0 <;>
        simp [iterateVaultRecords, iterAux, hb]

/-- Witness for C10: a backend with three full pages still gets exactly one
request and one callback invocation. -/
theorem iterateVaultRecords_single_page_witness :
    iterateVaultRecords (fun _ => Except.ok { items := [recA] }) 5 =
      Except.ok ([{ rangeHeader := Option.none }], [[recA]]) :=
  (iterateVaultRecords_single_page (fun _ => Except.ok { items := [recA] }) 5
    (by decide)).trans rfl

/-- C7: getVaultRecord follows the two-probe lock-guarded versioned-cache
sequence: (1) when the cache holds the key and the stored version equals the
current lastModifiedAt token, the cached record is returned after only the
cheap probe — no lock, no fetch; (2) the expensive fetch happens exactly when
the key is uncached or the stored version is stale; (3) a fetch is always
preceded by taking the lock and by a repetition of the probe-and-lookup
block; (4) the fetched record is stored keyed by its own lastModifiedAt and
returned; (5) a call that never fetches also never locks and leaves the
cache unchanged. -/
theorem getVaultRecord_two_probe_cache (b : KhBackend) (cache : RecordCache)
    (k : String) :
    (∀ t r, cache.containsKey k = true →
        getVaultRecordLastModifiedAt b.metadataResp = Except.ok t →
        cache.get t k = some r →
        getVaultRecordCached b cache k ""
          = (Except.ok r, cache, [KhEvent.probe])) ∧
    (KhEvent.fetch ∈ (getVaultRecordCached b cache k "").2.2 ↔
      (cache.containsKey k = false ∨
        ∃ t, getVaultRecordLastModifiedAt b.metadataResp = Except.ok t ∧
          cache.get t k = Option.none)) ∧
    (KhEvent.fetch ∈ (getVaultRecordCached b cache k "").2.2 →
      (getVaultRecordCached b cache k "").2.2 =
        (khRecheck b cache k).2 ++ [KhEvent.lock] ++ (khRecheck b cache k).2 ++
          [KhEvent.fetch, KhEvent.unlock]) ∧
    (∀ r, KhEvent.fetch ∈ (getVaultRecordCached b cache k "").2.2 →
        getVaultRecordApi b.recordResp = Except.ok r →
        (getVaultRecordCached b cache k "").1 = Except.ok r ∧
        (getVaultRecordCached b cache k "").2.1
          = cache.add r.lastModifiedAt k r) ∧
    (KhEvent.fetch ∉ (getVaultRecordCached b cache k "").2.2 →
      KhEvent.lock ∉ (getVaultRecordCached b cache k "").2.2 ∧
      (getVaultRecordCached b cache k "").2.1 = cache) := by
  cases hC : cache.containsKey k with
  | true =>
      cases hp : getVaultRecordLastModifiedAt b.metadataResp with
      | error e =>
          have heq : getVaultRecordCached b cache k ""
              = (Except.error e, cache, [KhEvent.probe]) := by
            simp [getVaultRecordCached, khRecheck, hC, hp]
          refine ⟨?_, ?_, ?_, ?_, ?_⟩ <;> simp [heq, hC, hp]
      | ok t0 =>
          cases hg : cache.get t0 k with
          | some r0 =>
              have heq : getVaultRecordCached b cache k ""
                  = (Except.ok r0, cache, [KhEvent.probe]) := by
                simp [getVaultRecordCached, khRecheck, hC, hp, hg]
              refine ⟨?_, ?_, ?_, ?_, ?_⟩ <;> simp [heq, hC, hp, hg]
              rintro t r rfl hgr
              rw [hg] at hgr
              exact Option.some.inj hgr
          | none =>
              cases hf : getVaultRecordApi b.recordResp with
              | error e =>
                  have heq : getVaultRecordCached b cache k ""
                      = (Except.error e, cache,
                          [KhEvent.probe, KhEvent.lock, KhEvent.probe,
                            KhEvent.fetch, KhEvent.unlock]) := by
                    simp [getVaultRecordCached, khRecheck, hC, hp, hg, hf]
                  refine ⟨?_, ?_, ?_, ?_, ?_⟩ <;>
                    simp [heq, khRecheck, hC, hp, hg, hf]
                  rintro t r rfl hgr
                  rw [hg] at hgr
                  exact Option.noConfusion hgr
              | ok r0 =>
                  have heq : getVaultRecordCached b cache k ""
                      = (Except.ok r0, cache.add r0.lastModifiedAt k r0,
                          [KhEvent.probe, KhEvent.lock, KhEvent.probe,
                            KhEvent.fetch, KhEvent.unlock]) := by
                    simp [getVaultRecordCached, khRecheck, hC, hp, hg, hf]
                  refine ⟨?_, ?_, ?_, ?_, ?_⟩ <;>
                    simp [heq, khRecheck, hC, hp, hg, hf]
                  rintro t r rfl hgr
                  rw [hg] at hgr
                  exact Option.noConfusion hgr
  | false =>
      cases hf : getVaultRecordApi b.recordResp with
      | error e =>
          have heq : getVaultRecordCached b cache k ""
              = (Except.error e, cache,
                  [KhEvent.lock, KhEvent.fetch, KhEvent.unlock]) := by
            simp [getVaultRecordCached, khRecheck, hC, hf]
          refine ⟨?_, ?_, ?_, ?_, ?_⟩ <;> simp [heq, khRecheck, hC, hf]
      | ok r0 =>
          have heq : getVaultRecordCached b cache k ""
              = (Except.ok r0, cache.add r0.lastModifiedAt k r0,
                  [KhEvent.lock, KhEvent.fetch, KhEvent.unlock]) := by
            simp [getVaultRecordCached, khRecheck, hC, hf]
          refine ⟨?_, ?_, ?_, ?_, ?_⟩ <;> simp [heq, khRecheck, hC, hf]

/-- Witness for C7: with a warm cache whose stored version matches the
probe token, the record is served from the cache with a single probe. -/
theorem getVaultRecord_two_probe_cache_witness :
    getVaultRecordCached khbA (emptyCache.add 42 "k" recA) "k" ""
      = (Except.ok recA, emptyCache.add 42 "k" recA, [KhEvent.probe]) :=
  (getVaultRecord_two_probe_cache khbA (emptyCache.add 42 "k" recA) "k").1
    42 recA (by rfl) (by rfl) (by rfl)

/-- The client-cache invariant holds in the initial state. -/
theorem ccInv_init (n : Nat) (keyOf : Fin n → String) :
    ccInv keyOf (ccInit n) := by
  unfold ccInv ccInit
  refine ⟨?_, ?_, ?_, ?_, ?_, ?_, ?_, ?_, ?_⟩ <;> simp

/-- The client-cache invariant is preserved by every transition. -/
theorem ccInv_step {n : Nat} (keyOf : Fin n → String) {s t : CCState n}
    (hinv : ccInv keyOf s) (hstep : CCStep keyOf s t) : ccInv keyOf t := by
  obtain ⟨I1, I2, I3, I4, I5, I6, I7, I8, I9⟩ := hinv
  cases hstep with
  | read_hit c h1 h2 =>
      unfold ccInv
      dsimp only
      refine ⟨?_, ?_, I3, ?_, I5, ?_, ?_, ?_, I9⟩
      · intro x hx
        by_cases hxc : x = c
        · subst hxc; rw [Function.update_same] at hx; exact absurd hx (by simp)
        · rw [Function.update_noteq hxc] at hx; exact I1 x hx
      · intro x hx
        by_cases hxc : x = c
        · subst hxc; rw [Function.update_same] at hx; exact absurd hx (by simp)
        · rw [Function.update_noteq hxc] at hx; exact I2 x hx
      · intro k hk
        rcases I4 k hk with hcache | ⟨x, hx, hkx⟩
        · exact Or.inl hcache
        · refine Or.inr ⟨x, ?_, hkx⟩
          have hxc : x ≠ c := by
            rintro rfl; rw [h1] at hx; exact absurd hx (by simp)
          rw [Function.update_noteq hxc]; exact hx
      · intro x hx
        by_cases hxc : x = c
        · subst hxc; rw [Function.update_same] at hx; exact absurd hx (by simp)
        · rw [Function.update_noteq hxc] at hx; exact I6 x hx
      · intro x hx
        by_cases hxc : x = c
        · subst hxc; exact h2
        · rw [Function.update_noteq hxc] at hx; exact I7 x hx
      · intro x hx
        by_cases hxc : x = c
        · subst hxc; rw [Function.update_same] at hx; exact absurd hx (by simp)
        · rw [Function.update_noteq hxc] at hx; exact I8 x hx
  | read_miss c h1 h2 =>
      unfold ccInv
      dsimp only
      refine ⟨?_, ?_, I3, ?_, I5, ?_, ?_, ?_, I9⟩
      · intro x hx
        by_cases hxc : x = c
        · subst hxc; rw [Function.update_same] at hx; exact absurd hx (by simp)
        · rw [Function.update_noteq hxc] at hx; exact I1 x hx
      · intro x hx
        by_cases hxc : x = c
        · subst hxc; rw [Function.update_same] at hx; exact absurd hx (by simp)
        · rw [Function.update_noteq hxc] at hx; exact I2 x hx
      · intro k hk
        rcases I4 k hk with hcache | ⟨x, hx, hkx⟩
        · exact Or.inl hcache
        · refine Or.inr ⟨x, ?_, hkx⟩
          have hxc : x ≠ c := by
            rintro rfl; rw [h1] at hx; exact absurd hx (by simp)
          rw [Function.update_noteq hxc]; exact hx
      · intro x hx
        by_cases hxc : x = c
        · subst hxc; rw [Function.update_same] at hx; exact absurd hx (by simp)
        · rw [Function.update_noteq hxc] at hx; exact I6 x hx
      · intro x hx
        by_cases hxc : x = c
        · subst hxc; rw [Function.update_same] at hx; exact absurd hx (by simp)
        · rw [Function.update_noteq hxc] at hx; exact I7 x hx
      · intro x hx
        by_cases hxc : x = c
        · subst hxc; rw [Function.update_same] at hx; exact absurd hx (by simp)
        · rw [Function.update_noteq hxc] at hx; exact I8 x hx
  | acquire c h1 h2 =>
      unfold ccInv
      dsimp only
      refine ⟨?_, ?_, I3, ?_, I5, ?_, ?_, ?_, I9⟩
      · intro x hx
        by_cases hxc : x = c
        · subst hxc; rfl
        · rw [Function.update_noteq hxc] at hx
          have hl := I1 x hx
          rw [h2] at hl
          exact absurd hl (by simp)
      · intro x hx
        by_cases hxc : x = c
        · subst hxc; rfl
        · rw [Function.update_noteq hxc] at hx
          have hl := I2 x hx
          rw [h2] at hl
          exact absurd hl (by simp)
      · intro k hk
        rcases I4 k hk with hcache | ⟨x, hx, hkx⟩
        · exact Or.inl hcache
        · have hl := I2 x hx
          rw [h2] at hl
          exact absurd hl (by simp)
      · intro x hx
        by_cases hxc : x = c
        · subst hxc; rw [Function.update_same] at hx; exact absurd hx (by simp)
        · rw [Function.update_noteq hxc] at hx; exact I6 x hx
      · intro x hx
        by_cases hxc : x = c
        · subst hxc; rw [Function.update_same] at hx; exact absurd hx (by simp)
        · rw [Function.update_noteq hxc] at hx; exact I7 x hx
      · intro x hx
        by_cases hxc : x = c
        · subst hxc; rw [Function.update_same] at hx; exact absurd hx (by simp)
        · rw [Function.update_noteq hxc] at hx; exact I8 x hx
  | locked_hit c h1 h2 h3 =>
      unfold ccInv
      dsimp only
      refine ⟨?_, ?_, I3, ?_, I5, ?_, ?_, ?_, I9⟩
      · intro x hx
        by_cases hxc : x = c
        · subst hxc; rw [Function.update_same] at hx; exact absurd hx (by simp)
        · rw [Function.update_noteq hxc] at hx
          have hl := I1 x hx
          rw [h2] at hl
          exact absurd (Option.some.inj hl).symm hxc
      · intro x hx
        by_cases hxc : x = c
        · subst hxc; rw [Function.update_same] at hx; exact absurd hx (by simp)
        · rw [Function.update_noteq hxc] at hx
          have hl := I2 x hx
          rw [h2] at hl
          exact absurd (Option.some.inj hl).symm hxc
      · intro k hk
        rcases I4 k hk with hcache | ⟨x, hx, hkx⟩
        · exact Or.inl hcache
        · exfalso
          have hl := I2 x hx
          rw [h2] at hl
          obtain rfl := Option.some.inj hl
          rw [h1] at hx
          exact absurd hx (by simp)
      · intro x hx
        by_cases hxc : x = c
        · subst hxc; rw [Function.update_same] at hx; exact absurd hx (by simp)
        · rw [Function.update_noteq hxc] at hx; exact I6 x hx
      · intro x hx
        by_cases hxc : x = c
        · subst hxc; exact h3
        · rw [Function.update_noteq hxc] at hx; exact I7 x hx
      · intro x hx
        by_cases hxc : x = c
        · subst hxc; rw [Function.update_same] at hx; exact absurd hx (by simp)
        · rw [Function.update_noteq hxc] at hx; exact I8 x hx
  | enter_factory c h1 h2 h3 =>
      have hcf : s.calls (keyOf c) = s.fails (keyOf c) := by
        have h9 := I9 (keyOf c)
        have h3le := I3 (keyOf c)
        by_cases heq : s.calls (keyOf c) = s.fails (keyOf c) + 1
        · exfalso
          rcases I4 _ heq with hcache | ⟨x, hx, hkx⟩
          · rw [h3] at hcache; exact absurd hcache (by simp)
          · have hl := I2 x hx
            rw [h2] at hl
            obtain rfl := Option.some.inj hl
            rw [h1] at hx
            exact absurd hx (by simp)
        · omega
      unfold ccInv
      dsimp only
      refine ⟨?_, ?_, ?_, ?_, ?_, ?_, ?_, ?_, ?_⟩
      · intro x hx
        by_cases hxc : x = c
        · subst hxc; rw [Function.update_same] at hx; exact absurd hx (by simp)
        · rw [Function.update_noteq hxc] at hx; exact I1 x hx
      · intro x hx
        by_cases hxc : x = c
        · subst hxc; exact h2
        · rw [Function.update_noteq hxc] at hx; exact I2 x hx
      · intro k
        by_cases hk : k = keyOf c
        · subst hk; rw [Function.update_same]; omega
        · rw [Function.update_noteq hk]; exact I3 k
      · intro k hk
        by_cases hck : k = keyOf c
        · subst hck
          exact Or.inr ⟨c, by rw [Function.update_same], rfl⟩
        · rw [Function.update_noteq hck] at hk
          rcases I4 k hk with hcache | ⟨x, hx, hkx⟩
          · exact Or.inl hcache
          · have hxc : x ≠ c := by
              rintro rfl; exact hck hkx.symm
            exact Or.inr ⟨x, by rw [Function.update_noteq hxc]; exact hx, hkx⟩
      · intro k hk
        by_cases hck : k = keyOf c
        · subst hck; rw [h3] at hk; exact absurd hk (by simp)
        · rw [Function.update_noteq hck]; exact I5 k hk
      · intro x hx
        by_cases hxc : x = c
        · subst hxc; rw [Function.update_same]; omega
        · rw [Function.update_noteq hxc] at hx
          have hl := I2 x hx
          rw [h2] at hl
          exact absurd (Option.some.inj hl).symm hxc
      · intro x hx
        by_cases hxc : x = c
        · subst hxc; rw [Function.update_same] at hx; exact absurd hx (by simp)
        · rw [Function.update_noteq hxc] at hx; exact I7 x hx
      · intro x hx
        by_cases hxc : x = c
        · subst hxc; exact h3
        · rw [Function.update_noteq hxc] at hx; exact I8 x hx
      · intro k
        by_cases hk : k = keyOf c
        · subst hk; rw [Function.update_same]; have := I9 (keyOf c); omega
        · rw [Function.update_noteq hk]; exact I9 k
  | finish_factory c h1 h2 =>
      unfold ccInv
      dsimp only
      refine ⟨?_, ?_, I3, ?_, ?_, ?_, ?_, ?_, I9⟩
      · intro x hx
        by_cases hxc : x = c
        · subst hxc; rw [Function.update_same] at hx; exact absurd hx (by simp)
        · rw [Function.update_noteq hxc] at hx
          have hl := I1 x hx
          rw [h2] at hl
          exact absurd (Option.some.inj hl).symm hxc
      · intro x hx
        by_cases hxc : x = c
        · subst hxc; rw [Function.update_same] at hx; exact absurd hx (by simp)
        · rw [Function.update_noteq hxc] at hx
          have hl := I2 x hx
          rw [h2] at hl
          exact absurd (Option.some.inj hl).symm hxc
      · intro k hk
        by_cases hck : k = keyOf c
        · subst hck
          exact Or.inl (by rw [Function.update_same])
        · rcases I4 k hk with hcache | ⟨x, hx, hkx⟩
          · exact Or.inl (by rw [Function.update_noteq hck]; exact hcache)
          · exfalso
            have hl := I2 x hx
            rw [h2] at hl
            obtain rfl := Option.some.inj hl
            exact hck hkx.symm
      · intro k hk
        by_cases hck : k = keyOf c
        · subst hck; exact I6 c h1
        · rw [Function.update_noteq hck] at hk; exact I5 k hk
      · intro x hx
        by_cases hxc : x = c
        · subst hxc; rw [Function.update_same] at hx; exact absurd hx (by simp)
        · rw [Function.update_noteq hxc] at hx; exact I6 x hx
      · intro x hx
        by_cases hxc : x = c
        · subst hxc; rw [Function.update_same]
        · rw [Function.update_noteq hxc] at hx
          have h7 := I7 x hx
          by_cases hk : keyOf x = keyOf c
          · rw [hk, Function.update_same]
          · rw [Function.update_noteq hk]; exact h7
      · intro x hx
        by_cases hxc : x = c
        · subst hxc; rw [Function.update_same] at hx; exact absurd hx (by simp)
        · rw [Function.update_noteq hxc] at hx
          have hl := I2 x hx
          rw [h2] at hl
          exact absurd (Option.some.inj hl).symm hxc
  | fail_factory c h1 h2 =>
      have h6c := I6 c h1
      unfold ccInv
      dsimp only
      refine ⟨?_, ?_, ?_, ?_, ?_, ?_, ?_, ?_, ?_⟩
      · intro x hx
        by_cases hxc : x = c
        · subst hxc; rw [Function.update_same] at hx; exact absurd hx (by simp)
        · rw [Function.update_noteq hxc] at hx
          have hl := I1 x hx
          rw [h2] at hl
          exact absurd (Option.some.inj hl).symm hxc
      · intro x hx
        by_cases hxc : x = c
        · subst hxc; rw [Function.update_same] at hx; exact absurd hx (by simp)
        · rw [Function.update_noteq hxc] at hx
          have hl := I2 x hx
          rw [h2] at hl
          exact absurd (Option.some.inj hl).symm hxc
      · intro k
        by_cases hk : k = keyOf c
        · subst hk; rw [Function.update_same]; have := I3 (keyOf c); omega
        · rw [Function.update_noteq hk]; exact I3 k
      · intro k hk
        by_cases hck : k = keyOf c
        · exfalso
          subst hck
          rw [Function.update_same] at hk
          omega
        · rw [Function.update_noteq hck] at hk
          rcases I4 k hk with hcache | ⟨x, hx, hkx⟩
          · exact Or.inl hcache
          · have hl := I2 x hx
            rw [h2] at hl
            obtain rfl := Option.some.inj hl
            exact absurd hkx.symm hck
      · intro k hk
        by_cases hck : k = keyOf c
        · subst hck
          have h8 := I8 c h1
          rw [h8] at hk
          exact absurd hk (by simp)
        · rw [Function.update_noteq hck]; exact I5 k hk
      · intro x hx
        by_cases hxc : x = c
        · subst hxc; rw [Function.update_same] at hx; exact absurd hx (by simp)
        · rw [Function.update_noteq hxc] at hx
          have hl := I2 x hx
          rw [h2] at hl
          exact absurd (Option.some.inj hl).symm hxc
      · intro x hx
        by_cases hxc : x = c
        · subst hxc; rw [Function.update_same] at hx; exact absurd hx (by simp)
        · rw [Function.update_noteq hxc] at hx; exact I7 x hx
      · intro x hx
        by_cases hxc : x = c
        · subst hxc; rw [Function.update_same] at hx; exact absurd hx (by simp)
        · rw [Function.update_noteq hxc] at hx; exact I8 x hx
      · intro k
        by_cases hk : k = keyOf c
        · subst hk; rw [Function.update_same]; omega
        · rw [Function.update_noteq hk]; exact I9 k

/-- The invariant holds in every reachable state. -/
theorem ccInv_reach {n : Nat} (keyOf : Fin n → String) {s : CCState n}
    (h : CCReach keyOf s) : ccInv keyOf s := by
  induction h with
  | refl => exact ccInv_init n keyOf
  | tail _ hstep ih => exact ccInv_step keyOf ih hstep

/-- C8 amended: under any interleaving of concurrent newClient callers,
double-checked locking limits the factory for each (identity, version) key to
at most one invocation more than the invocations that failed — factory
failures are not cached (part_003:77-79), so each failure permits one retry;
in a run in which no factory call for a key fails, that key sees at most one
invocation, and exactly one for the key of every caller that completed with a
client. The lock guarding construction is the single package-level useMu held
across the factory call, not a per-key lock, so callers for different keys
can block each other (see the counterexample). -/
theorem clientCache_single_flight {n : Nat} (keyOf : Fin n → String)
    (s : CCState n) (h : CCReach keyOf s) :
    (∀ k, s.calls k ≤ s.fails k + 1) ∧
    (∀ k, s.fails k = 0 → s.calls k ≤ 1) ∧
    (∀ c, s.phase c = CPhase.done → s.fails (keyOf c) = 0 →
      s.calls (keyOf c) = 1) := by
  obtain ⟨I1, I2, I3, I4, I5, I6, I7, I8, I9⟩ := ccInv_reach keyOf h
  refine ⟨I3, ?_, ?_⟩
  · intro k hk
    have := I3 k
    omega
  · intro c hc hf
    have h5 := I5 _ (I7 c hc)
    omega

/-- Witness for C8: one caller runs to completion with a succeeding factory;
no failures, and its factory ran exactly once. -/
theorem clientCache_single_flight_witness : ccA4.calls "A" = 1 := by
  have s1 : CCStep keyOfA (ccInit 1) ccA1 := CCStep.read_miss _ 0 rfl rfl
  have s2 : CCStep keyOfA ccA1 ccA2 := CCStep.acquire _ 0 rfl rfl
  have s3 : CCStep keyOfA ccA2 ccA3 := CCStep.enter_factory _ 0 rfl rfl rfl
  have s4 : CCStep keyOfA ccA3 ccA4 := CCStep.finish_factory _ 0 rfl rfl
  have hreach : CCReach keyOfA ccA4 :=
    Relation.ReflTransGen.tail
      (Relation.ReflTransGen.tail
        (Relation.ReflTransGen.tail
          (Relation.ReflTransGen.tail Relation.ReflTransGen.refl s1) s2) s3) s4
  exact (clientCache_single_flight keyOfA ccA4 hreach).2.2 0 rfl rfl

/-- A failed factory call is retried: with both callers on the cold key "A",
caller 0 enters the factory and fails (nothing cached), then caller 1
re-enters the factory for the same cold key and succeeds — two invocations,
one failure, matching the calls ≤ fails + 1 bound and showing single-flight
does not extend across failures. -/
theorem clientCache_failed_factory_retry :
    CCReach keyOfA2 ccR8 ∧
    ccR8.calls "A" = 2 ∧
    ccR8.fails "A" = 1 ∧
    ccR8.phase 0 = CPhase.failed ∧
    ccR8.phase 1 = CPhase.done ∧
    ccR8.cache "A" = true := by
  have s1 : CCStep keyOfA2 (ccInit 2) ccR1 := CCStep.read_miss _ 0 rfl rfl
  have s2 : CCStep keyOfA2 ccR1 ccR2 := CCStep.read_miss _ 1 rfl rfl
  have s3 : CCStep keyOfA2 ccR2 ccR3 := CCStep.acquire _ 0 rfl rfl
  have s4 : CCStep keyOfA2 ccR3 ccR4 := CCStep.enter_factory _ 0 rfl rfl rfl
  have s5 : CCStep keyOfA2 ccR4 ccR5 := CCStep.fail_factory _ 0 rfl rfl
  have s6 : CCStep keyOfA2 ccR5 ccR6 := CCStep.acquire _ 1 rfl rfl
  have s7 : CCStep keyOfA2 ccR6 ccR7 := CCStep.enter_factory _ 1 rfl rfl rfl
  have s8 : CCStep keyOfA2 ccR7 ccR8 := CCStep.finish_factory _ 1 rfl rfl
  refine ⟨?_, by rfl, by rfl, by rfl, by rfl, by rfl⟩
  exact Relation.ReflTransGen.tail
    (Relation.ReflTransGen.tail
      (Relation.ReflTransGen.tail
        (Relation.ReflTransGen.tail
          (Relation.ReflTransGen.tail
            (Relation.ReflTransGen.tail
              (Relation.ReflTransGen.tail
                (Relation.ReflTransGen.tail Relation.ReflTransGen.refl s1)
                s2) s3) s4) s5) s6) s7) s8

/-- Every transition that changes the phase of a caller requires that caller
to be enabled, so a caller with a false enabled-check cannot progress. -/
theorem ccEnabled_of_phase_change {n : Nat} {keyOf : Fin n → String}
    {s t : CCState n} (h : CCStep keyOf s t) (c : Fin n)
    (hc : t.phase c ≠ s.phase c) : ccEnabled s c = true := by
  cases h with
  | read_hit x h1 h2 =>
      dsimp only at hc
      by_cases hxc : c = x
      · subst hxc; simp [ccEnabled, h1]
      · exact absurd (Function.update_noteq hxc _ _) hc
  | read_miss x h1 h2 =>
      dsimp only at hc
      by_cases hxc : c = x
      · subst hxc; simp [ccEnabled, h1]
      · exact absurd (Function.update_noteq hxc _ _) hc
  | acquire x h1 h2 =>
      dsimp only at hc
      by_cases hxc : c = x
      · subst hxc; simp [ccEnabled, h1, h2]
      · exact absurd (Function.update_noteq hxc _ _) hc
  | locked_hit x h1 h2 h3 =>
      dsimp only at hc
      by_cases hxc : c = x
      · subst hxc; simp [ccEnabled, h1, h2]
      · exact absurd (Function.update_noteq hxc _ _) hc
  | enter_factory x h1 h2 h3 =>
      dsimp only at hc
      by_cases hxc : c = x
      · subst hxc; simp [ccEnabled, h1, h2]
      · exact absurd (Function.update_noteq hxc _ _) hc
  | finish_factory x h1 h2 =>
      dsimp only at hc
      by_cases hxc : c = x
      · subst hxc; simp [ccEnabled, h1, h2]
      · exact absurd (Function.update_noteq hxc _ _) hc
  | fail_factory x h1 h2 =>
      dsimp only at hc
      by_cases hxc : c = x
      · subst hxc; simp [ccEnabled, h1, h2]
      · exact absurd (Function.update_noteq hxc _ _) hc

/-- C8 counterexample: a reachable state in which caller 0, working on key
"A", holds the single global useMu inside the slow factory call while caller
1, working on the different key "B", is waiting and has no enabled
transition — concurrent calls for different keys do block each other, so the
construction lock is not per-key. -/
theorem clientCache_global_lock_counterexample :
    CCReach keyOfAB ccABBlocked ∧
    keyOfAB 0 ≠ keyOfAB 1 ∧
    ccABBlocked.phase 0 = CPhase.inFactory ∧
    ccABBlocked.phase 1 = CPhase.waiting ∧
    ccABBlocked.lock = some 0 ∧
    ccEnabled ccABBlocked 1 = false := by
  have s1 : CCStep keyOfAB (ccInit 2) ccAB1 := CCStep.read_miss _ 0 rfl rfl
  have s2 : CCStep keyOfAB ccAB1 ccAB2 := CCStep.acquire _ 0 rfl rfl
  have s3 : CCStep keyOfAB ccAB2 ccAB3 := CCStep.enter_factory _ 0 rfl rfl rfl
  have s4 : CCStep keyOfAB ccAB3 ccABBlocked := CCStep.read_miss _ 1 rfl rfl
  refine ⟨?_, by decide, by rfl, by rfl, by rfl, by rfl⟩
  exact Relation.ReflTransGen.tail
    (Relation.ReflTransGen.tail
      (Relation.ReflTransGen.tail
        (Relation.ReflTransGen.tail Relation.ReflTransGen.refl s1) s2) s3) s4
